import Mathlib

/-!
Verification of the testnice scheduler-visualization tool against its design
specification.  The repository ships the kernel reference layout in
src/sched.c together with the design document; the runtime components
(FloodController, StatSampler, SharedLog, ComparisonTUI, NicenessWorker) are
embedded here from the specification text, and the claims are settled
against those embeddings.
-/

namespace Testnice

/-- Modelled from the spec: the weight-mapping function "must match the
kernel's own mapping table"; this is the kernel's sched_prio_to_weight
table, indexed by niceness + 20 (the load weight of src/sched.c's
sched_entity.load, one entry per niceness in -20..19). -/
def sched_prio_to_weight : List Nat :=
  [88761, 71755, 56483, 46273, 36291,
   29154, 23254, 18705, 14949, 11916,
   9548, 7620, 6100, 4904, 3906,
   3121, 2501, 2015, 1636, 1277,
   1024, 820, 655, 526, 423,
   335, 272, 215, 172, 137,
   110, 87, 70, 56, 45,
   36, 29, 23, 18, 15]

/-- Modelled from the spec: scheduler load weight as a function of
niceness (spec section 3: weight is "derived from niceness" through the
kernel mapping table). -/
def weight (nice : Int) : Nat :=
  sched_prio_to_weight.getD (nice + 20).toNat 0

/-- All pairs of in-range niceness values, compared on the table. -/
theorem weight_table_pairs :
    ∀ a ∈ Finset.Icc (-20 : Int) 19, ∀ b ∈ Finset.Icc (-20 : Int) 19,
      a < b → weight b < weight a := by decide

/-- C1: for every niceness value in -20..19 the weight-mapping function
(niceness to scheduler load weight) is deterministic (it is a function) and
strictly monotonically decreasing: n1 < n2 implies weight n1 > weight n2. -/
theorem weight_strictly_decreasing (n1 n2 : Int)
    (h1 : -20 ≤ n1) (h12 : n1 < n2) (h2 : n2 ≤ 19) :
    weight n1 > weight n2 := by
  have hm1 : n1 ∈ Finset.Icc (-20 : Int) 19 :=
    Finset.mem_Icc.mpr ⟨h1, le_of_lt (lt_of_lt_of_le h12 h2)⟩
  have hm2 : n2 ∈ Finset.Icc (-20 : Int) 19 :=
    Finset.mem_Icc.mpr ⟨le_of_lt (lt_of_le_of_lt h1 h12), h2⟩
  exact weight_table_pairs n1 hm1 n2 hm2 h12

/-- Witness for C1 at the concrete pair (-20, 0). -/
theorem weight_strictly_decreasing_witness :
    weight (-20) > weight 0 :=
  weight_strictly_decreasing (-20) 0 (by decide) (by decide) (by decide)

/-! ## Data model (spec section 3) -/

/-- Scheduling policy enumeration (spec section 3). -/
inductive Policy
  | OTHER
  | FIFO
  | RR
  | BATCH
  | IDLE
  | DEADLINE
deriving DecidableEq, Repr

/-- Modelled from the spec: SchedSnapshot, the immutable point-in-time
record produced by StatSampler (the StatSampler implementation is not in
the repository sources). -/
structure SchedSnapshot where
  target_id : Nat
  timestamp : Nat
  vruntime : Nat
  nr_switches : Nat
  weight : Nat
  policy : Policy
  niceness : Int
deriving DecidableEq, Repr

/-! ## C2: timestamp monotonicity of a single target's delivered stream -/

/-- Outcome of the sampler's monotonicity check for one raw sample. -/
inductive Delivery
  | delivered (s : SchedSnapshot)
  | clockRegressionWarning
deriving DecidableEq, Repr

/-- Modelled from the spec: the StatSampler invariant check that the new
timestamp exceeds the previous one for the same target; a violating sample
is discarded and a ClockRegressionWarning surfaced, the saved timestamp is
kept; otherwise the sample is delivered and the timestamp saved. -/
def checkSample (last : Option Nat) (s : SchedSnapshot) :
    Delivery × Option Nat :=
  match last with
  | none => (.delivered s, some s.timestamp)
  | some t =>
      if s.timestamp ≤ t then (.clockRegressionWarning, some t)
      else (.delivered s, some s.timestamp)

/-- Modelled from the spec: run the monotonicity check over a whole raw
sample stream for a single target, threading the last-timestamp state and
recording one outcome per raw sample (sampling continues after a drop). -/
def sampleStream (last : Option Nat) : List SchedSnapshot → List Delivery
  | [] => []
  | s :: rest =>
      let r := checkSample last s
      r.1 :: sampleStream r.2 rest

/-- The snapshots actually delivered to the consumer. -/
def deliveredOf (ds : List Delivery) : List SchedSnapshot :=
  ds.foldr
    (fun d acc =>
      match d with
      | .delivered s => s :: acc
      | .clockRegressionWarning => acc)
    []

/-- Timestamps of the delivered stream starting from saved state. -/
def deliveredTimestamps (last : Option Nat) (raw : List SchedSnapshot) :
    List Nat :=
  (deliveredOf (sampleStream last raw)).map (fun s => s.timestamp)

theorem sampleStream_length :
    ∀ (raw : List SchedSnapshot) (last : Option Nat),
      (sampleStream last raw).length = raw.length := by
  intro raw
  induction raw with
  | nil => intro last; rfl
  | cons s rest ih => intro last; simp [sampleStream, ih]

theorem sampleStream_mono :
    ∀ (raw : List SchedSnapshot) (last : Option Nat),
      List.Chain' (· < ·) (deliveredTimestamps last raw) ∧
      (∀ t, last = some t → ∀ u ∈ deliveredTimestamps last raw, t < u) := by
  intro raw
  induction raw with
  | nil =>
      intro last
      constructor
      · simp [deliveredTimestamps, sampleStream, deliveredOf]
      · intro t _ u hu
        simp [deliveredTimestamps, sampleStream, deliveredOf] at hu
  | cons s rest ih =>
      intro last
      match last with
      | none =>
          have key := ih (some s.timestamp)
          constructor
          · simp only [deliveredTimestamps, sampleStream, checkSample,
              deliveredOf, List.foldr, List.map]
            exact List.chain'_cons'.mpr
              ⟨fun u hu => (key.2 s.timestamp rfl u
                  (by simpa [deliveredTimestamps] using List.mem_of_mem_head? hu)),
               key.1⟩
          · intro t ht
            exact absurd ht (by simp)
      | some t =>
          by_cases hle : s.timestamp ≤ t
          · have key := ih (some t)
            constructor
            · simpa [deliveredTimestamps, sampleStream, checkSample, hle,
                deliveredOf] using key.1
            · intro t' ht' u hu
              have : t' = t := by injection ht' with h; exact h.symm
              subst this
              exact key.2 t' rfl u
                (by simpa [deliveredTimestamps, sampleStream, checkSample,
                    hle, deliveredOf] using hu)
          · have key := ih (some s.timestamp)
            have hlt : t < s.timestamp := Nat.lt_of_not_le hle
            constructor
            · simp only [deliveredTimestamps, sampleStream, checkSample,
                hle, if_neg hle, deliveredOf, List.foldr, List.map]
              exact List.chain'_cons'.mpr
                ⟨fun u hu => (key.2 s.timestamp rfl u
                    (by simpa [deliveredTimestamps] using List.mem_of_mem_head? hu)),
                 key.1⟩
            · intro t' ht' u hu
              have : t' = t := by injection ht' with h; exact h.symm
              subst this
              simp only [deliveredTimestamps, sampleStream, checkSample,
                if_neg hle, deliveredOf, List.foldr, List.map, List.mem_cons] at hu
              rcases hu with h | h
              · omega
              · have := key.2 s.timestamp rfl u (by
                  simpa [deliveredTimestamps] using h)
                omega

/-- C2: in the stream delivered to a consumer for a single target the
timestamps are strictly increasing; a sample whose timestamp does not
exceed the previous saved timestamp is discarded with a
ClockRegressionWarning surfaced (never delivered); and sampling continues
after a drop: every raw sample receives exactly one outcome. -/
theorem delivered_timestamps_strictly_increasing
    (raw : List SchedSnapshot) :
    List.Chain' (· < ·) (deliveredTimestamps none raw) ∧
    (∀ t s, s.timestamp ≤ t →
      checkSample (some t) s = (.clockRegressionWarning, some t)) ∧
    (sampleStream none raw).length = raw.length := by
  refine ⟨(sampleStream_mono raw none).1, ?_, sampleStream_length raw none⟩
  intro t s h
  simp [checkSample, h]

/-! ## C3 and C4: FloodController -/

/-- WorkerHandle, owned exclusively by FloodController (spec section 3). -/
structure WorkerHandle where
  thread_id : Nat
  requested_niceness : Int
  running : Bool
deriving DecidableEq, Repr

/-- The flood-side error of the error taxonomy (spec section 7). -/
inductive FloodError
  | excessiveLoad
deriving DecidableEq, Repr

/-- The session object returned by FloodController.start. -/
structure FloodSession where
  workers : List WorkerHandle
deriving DecidableEq, Repr

/-- Modelled from the spec: the safety bound on the flood thread count
relative to the available logical cores (the README warns not to exceed
the number of cores). -/
def safetyBound (cores : Nat) : Nat := cores

/-- Modelled from the spec: FloodController.start (the implementation is
not in the repository sources). The count is validated against the safety
bound before anything else; on refusal it returns ExcessiveLoadError and
the spawn-event list is empty (no partial spawn, no silent capping);
otherwise it spawns count NicenessWorkers and collects their handles in
the session. The second component is the list of spawn events, one per
thread actually created. -/
def floodStart (count : Nat) (niceness : Int) (cores : Nat) :
    Except FloodError FloodSession × List WorkerHandle :=
  if count > safetyBound cores then (.error .excessiveLoad, [])
  else
    let hs := (List.range count).map
      (fun i =>
        { thread_id := i, requested_niceness := niceness, running := true })
    (.ok { workers := hs }, hs)

/-- Modelled from the spec: FloodSession.stop signals every worker and
joins it; a joined worker is no longer running. -/
def floodStop (s : FloodSession) : FloodSession :=
  { workers := s.workers.map (fun h => { h with running := false }) }

/-- Number of still-live worker threads of a session. -/
def liveWorkers (s : FloodSession) : Nat :=
  (s.workers.filter (fun h => h.running)).length

/-- C3: a start request whose count exceeds the safety bound returns
ExcessiveLoadError and creates zero worker threads: the spawn-event list
is empty, so the error is raised before any thread is created. -/
theorem floodStart_excessive_rejected
    (count : Nat) (niceness : Int) (cores : Nat)
    (h : count > safetyBound cores) :
    (floodStart count niceness cores).1 = .error .excessiveLoad ∧
    (floodStart count niceness cores).2 = [] := by
  constructor <;> simp [floodStart, h]

/-- Witness for C3 at the concrete request count 5 on 4 cores. -/
theorem floodStart_excessive_rejected_witness :
    5 > safetyBound 4 ∧
    (floodStart 5 0 4).1 = .error .excessiveLoad ∧
    (floodStart 5 0 4).2 = [] :=
  ⟨by decide, floodStart_excessive_rejected 5 0 4 (by decide)⟩

theorem filter_running_of_stopped (l : List WorkerHandle) :
    ((l.map (fun h => { h with running := false })).filter
      (fun h => h.running)).length = 0 := by
  induction l with
  | nil => rfl
  | cons h t ih => simp [List.filter, ih]

/-- C4: for every count the controller accepts, exactly count workers are
spawned (the spawn-event list and the collected handles both have length
count), and after stop() signals and joins them zero worker threads
remain live. -/
theorem floodStart_spawns_exactly_stop_joins_all
    (count : Nat) (niceness : Int) (cores : Nat) (s : FloodSession)
    (h : (floodStart count niceness cores).1 = .ok s) :
    s.workers.length = count ∧
    (floodStart count niceness cores).2.length = count ∧
    liveWorkers (floodStop s) = 0 := by
  by_cases hb : count > safetyBound cores
  · simp [floodStart, hb] at h
  · simp only [floodStart, if_neg hb] at h ⊢
    have hs : s =
        { workers := (List.range count).map
            (fun i =>
              { thread_id := i, requested_niceness := niceness,
                running := true }) } := by
      cases h
      rfl
    subst hs
    refine ⟨by simp, by simp, ?_⟩
    simp only [liveWorkers, floodStop]
    exact filter_running_of_stopped _

/-- Witness for C4 at the concrete accepted request of 2 threads on 4
cores. -/
theorem floodStart_spawns_exactly_stop_joins_all_witness :
    ({ workers :=
        [{ thread_id := 0, requested_niceness := 0, running := true },
         { thread_id := 1, requested_niceness := 0, running := true }] } :
      FloodSession).workers.length = 2 ∧
    (floodStart 2 0 4).2.length = 2 ∧
    liveWorkers (floodStop
      { workers :=
          [{ thread_id := 0, requested_niceness := 0, running := true },
           { thread_id := 1, requested_niceness := 0, running := true }] }) = 0 :=
  floodStart_spawns_exactly_stop_joins_all 2 0 4 _ (by rfl)

/-! ## C7: NicenessWorker start-up error behaviour -/

/-- Events observable from one NicenessWorker's start-up. -/
inductive WorkerEvent
  | setSchedCall (nice : Int)
  | privilegeErrorReport
  | busyLoopAt (nice : Int)
deriving DecidableEq, Repr

/-- Modelled from the spec: NicenessWorker start (the implementation is
not in the repository sources). It issues one OS call to set its own
scheduling niceness/policy; if the OS refuses (for example negative
niceness without privilege) it reports a PrivilegeError and stops; if the
OS accepts it enters the CPU-bound busy loop at the requested niceness.
The osAccepts flag abstracts the OS's decision; the result is the event
trace of the start-up. -/
def workerStart (requested : Int) (osAccepts : Bool) : List WorkerEvent :=
  if osAccepts then
    [.setSchedCall requested, .busyLoopAt requested]
  else
    [.setSchedCall requested, .privilegeErrorReport]

/-- C7: when the OS call setting the requested niceness fails, the worker
reports a PrivilegeError exactly once, issues the OS call exactly once (no
retry), and never runs its busy loop at any niceness (no silent fallback
to a different niceness). -/
theorem workerStart_privilege_error (requested : Int) :
    (workerStart requested false).count .privilegeErrorReport = 1 ∧
    ((workerStart requested false).countP
      (fun e => match e with
        | .setSchedCall _ => true
        | _ => false)) = 1 ∧
    (∀ n, WorkerEvent.busyLoopAt n ∉ workerStart requested false) := by
  refine ⟨?_, ?_, ?_⟩
  · simp [workerStart, List.count_cons]
  · simp [workerStart, List.countP_cons]
  · intro n
    simp [workerStart]

/-! ## C10: vruntime semantics (src/sched.c, sched_entity.vruntime) -/

/-- The load weight of niceness 0 in the kernel table. -/
def NICE_0_LOAD : Nat := 1024

/-- Modelled from the spec and the documentation of sched_entity.vruntime
in src/sched.c: vruntime is a deterministic function of the physical
runtime accrued and the niceness (and, through the table, the priority) —
CFS scales physical runtime by NICE_0_LOAD over the task's load weight. -/
def calcVruntime (physicalRuntime : Nat) (nice : Int) : Nat :=
  physicalRuntime * NICE_0_LOAD / weight nice

/-- Modelled from src/sched.c's documentation that a lower vruntime means
"more deserving of runtime": of two entities the scheduler deems the one
with the lower vruntime more deserving. -/
def pickMoreDeserving (a b : SchedSnapshot) : SchedSnapshot :=
  if a.vruntime ≤ b.vruntime then a else b

/-- C10: at niceness 0 the vruntime equals the physical runtime accrued;
vruntime is a deterministic function of physical runtime and niceness
(calcVruntime is a function, and equal inputs give equal outputs); and
lower vruntime means more deserving: the picked entity's vruntime is the
minimum of the two. -/
theorem vruntime_nice0_eq_runtime :
    (∀ r : Nat, calcVruntime r 0 = r) ∧
    (∀ r n r2 n2, r = r2 → n = n2 → calcVruntime r n = calcVruntime r2 n2) ∧
    (∀ a b : SchedSnapshot,
      (pickMoreDeserving a b).vruntime ≤ a.vruntime ∧
      (pickMoreDeserving a b).vruntime ≤ b.vruntime) := by
  refine ⟨?_, ?_, ?_⟩
  · intro r
    have hw : weight 0 = 1024 := by decide
    simp only [calcVruntime, NICE_0_LOAD, hw]
    exact Nat.mul_div_cancel r (by norm_num)
  · intro r n r2 n2 hr hn
    rw [hr, hn]
  · intro a b
    unfold pickMoreDeserving
    by_cases hab : a.vruntime ≤ b.vruntime
    · simp [hab]
    · simp [hab]
      omega

/-! ## C6: StatSampler poll -/

/-- The OS-side per-target scheduling accounting (the collaborator
interface of spec section 6), as read at the moment of one poll call. -/
structure OsAccounting where
  vruntime : Nat
  nr_switches : Nat
  weight : Nat
  policy : Policy
  niceness : Int
deriving DecidableEq, Repr

/-- The OS environment at the moment of a poll: the monotonic clock and
the accounting of each live target (none when the target has exited). -/
structure OsEnv where
  now : Nat
  accounting : Nat → Option OsAccounting

/-- Modelled from the spec: the only state StatSampler keeps between
calls — the per-target last timestamp used for the monotonicity check. -/
def SamplerState : Type := List (Nat × Nat)

/-- Saved last timestamp for a target, if any. -/
def lastTimestamp (st : SamplerState) (target : Nat) : Option Nat :=
  match st with
  | [] => none
  | p :: rest => if p.1 = target then some p.2 else lastTimestamp rest target

/-- Record a new last timestamp for a target. -/
def setLastTimestamp (st : SamplerState) (target t : Nat) : SamplerState :=
  match st with
  | [] => [(target, t)]
  | p :: rest =>
      if p.1 = target then (target, t) :: rest
      else p :: setLastTimestamp rest target t

/-- Sampling errors of the error taxonomy (spec section 7). -/
inductive SampleError
  | targetNotFound
  | clockRegression
deriving DecidableEq, Repr

/-- Modelled from the spec: StatSampler.poll (the implementation is not in
the repository sources). It reads the OS accounting at the moment of the
call; fails with TargetNotFound exactly when the target has exited;
otherwise it builds the snapshot with vruntime and nr_switches copied
from the OS counters unmodified, subject to the timestamp monotonicity
check of C2 (a regressing sample is discarded and only a warning
surfaced). -/
def poll (env : OsEnv) (st : SamplerState) (target : Nat) :
    Except SampleError SchedSnapshot × SamplerState :=
  match env.accounting target with
  | none => (.error .targetNotFound, st)
  | some acc =>
      let snap : SchedSnapshot :=
        { target_id := target, timestamp := env.now,
          vruntime := acc.vruntime, nr_switches := acc.nr_switches,
          weight := acc.weight, policy := acc.policy,
          niceness := acc.niceness }
      match checkSample (lastTimestamp st target) snap with
      | (.delivered s, _) => (.ok s, setLastTimestamp st target s.timestamp)
      | (.clockRegressionWarning, _) => (.error .clockRegression, st)

theorem lastTimestamp_set_other (st : SamplerState) (target t other : Nat)
    (h : other ≠ target) :
    lastTimestamp (setLastTimestamp st target t) other =
      lastTimestamp st other := by
  have h2 : ¬ target = other := fun hh => h hh.symm
  induction st with
  | nil => simp [setLastTimestamp, lastTimestamp, h2]
  | cons p rest ih =>
      by_cases hp : p.1 = target
      · simp [setLastTimestamp, lastTimestamp, hp, h2]
      · simp [setLastTimestamp, lastTimestamp, hp, ih]

/-- C6: poll returns TargetNotFound exactly when the target has exited
(its OS accounting is gone); a successfully delivered snapshot carries the
OS counters vruntime and nr_switches unmodified; and the sampler state the
call leaves behind agrees with the old state on every other target — the
only state kept between calls is the polled target's last timestamp. -/
theorem poll_spec (env : OsEnv) (st : SamplerState) (target : Nat) :
    ((poll env st target).1 = .error .targetNotFound ↔
      env.accounting target = none) ∧
    (∀ acc s, env.accounting target = some acc →
      (poll env st target).1 = .ok s →
      s.vruntime = acc.vruntime ∧ s.nr_switches = acc.nr_switches) ∧
    (∀ other, other ≠ target →
      lastTimestamp (poll env st target).2 other = lastTimestamp st other) := by
  refine ⟨?_, ?_, ?_⟩
  · rcases hacc : env.accounting target with _ | acc
    · simp [poll, hacc]
    · rcases hlast : lastTimestamp st target with _ | t
      · simp [poll, hacc, hlast, checkSample]
      · by_cases hle : env.now ≤ t
        · simp [poll, hacc, hlast, checkSample, hle]
        · simp [poll, hacc, hlast, checkSample, hle]
  · intro acc s hacc hok
    rcases hlast : lastTimestamp st target with _ | t
    · simp only [poll, hacc, hlast, checkSample] at hok
      injection hok with h2
      subst h2
      exact ⟨rfl, rfl⟩
    · by_cases hle : env.now ≤ t
      · simp [poll, hacc, hlast, checkSample, hle] at hok
      · simp only [poll, hacc, hlast, checkSample, if_neg hle] at hok
        injection hok with h2
        subst h2
        exact ⟨rfl, rfl⟩
  · intro other hother
    rcases hacc : env.accounting target with _ | acc
    · simp [poll, hacc]
    · rcases hlast : lastTimestamp st target with _ | t
      · simp only [poll, hacc, hlast, checkSample]
        exact lastTimestamp_set_other st target _ other hother
      · by_cases hle : env.now ≤ t
        · simp [poll, hacc, hlast, checkSample, hle]
        · simp only [poll, hacc, hlast, checkSample, if_neg hle]
          exact lastTimestamp_set_other st target _ other hother

/-! ## C9: ComparisonTUI target-exit isolation -/

/-- Display state of one side of the comparison TUI: still being polled
(with the last rendered snapshot, if any), or stopped after its target
exited. -/
inductive SideDisplay
  | polling (last : Option SchedSnapshot)
  | stopped
deriving DecidableEq, Repr

/-- Outcome of one StatSampler call as seen by the TUI's polling loop. -/
inductive PollOutcome
  | ok (s : SchedSnapshot)
  | notFound
  | regression
deriving DecidableEq, Repr

/-- Modelled from the spec: the per-tick update of one TUI side from its
own sampler outcome — TargetNotFound moves the side to the Stopped
display state; a successful snapshot refreshes the display; a dropped
(clock-regression) sample keeps the previous display; a stopped side
stays stopped. -/
def stepSide (d : SideDisplay) (o : PollOutcome) : SideDisplay :=
  match d with
  | .stopped => .stopped
  | .polling last =>
      match o with
      | .ok s => .polling (some s)
      | .notFound => .stopped
      | .regression => .polling last

/-- The ComparisonTUI polling state: both sides' display states. -/
structure TuiState where
  left : SideDisplay
  right : SideDisplay
deriving DecidableEq, Repr

/-- Modelled from the spec: one polling tick of the ComparisonTUI updates
the two sides independently, each from its own sampler outcome; the tick
is a total function, so a tick never blocks or crashes. -/
def tick (st : TuiState) (lo ro : PollOutcome) : TuiState :=
  { left := stepSide st.left lo, right := stepSide st.right ro }

/-- C9: in every state of the TUI state machine, when one side's poll
returns TargetNotFound that side transitions to the Stopped display state
while the other side continues: it is updated exactly as its own outcome
dictates, unaffected by the exited target; symmetrically for the other
side; and the tick is total, so the session neither blocks nor crashes. -/
theorem tui_exit_isolated (st : TuiState) (o : PollOutcome) :
    (∀ last, st.left = .polling last →
      (tick st .notFound o).left = .stopped) ∧
    (tick st .notFound o).right = stepSide st.right o ∧
    (∀ last, st.right = .polling last →
      (tick st o .notFound).right = .stopped) ∧
    (tick st o .notFound).left = stepSide st.left o := by
  refine ⟨?_, rfl, ?_, rfl⟩ <;>
    · intro last h
      simp [tick, h, stepSide]

/-! ## C5: SharedLog record round-trip -/

/-- Modelled from the spec: a LogRecord is a serialized SchedSnapshot plus
a session/source tag (the tag is modelled as a numeric session
identifier). -/
structure LogRecord where
  tag : Nat
  snap : SchedSnapshot
deriving DecidableEq, Repr

/-- The character of one decimal digit. -/
def digitChar (d : Nat) : Char := Char.ofNat (48 + d)

/-- The decimal digit of one character. -/
def charDigit (c : Char) : Nat := c.toNat - 48

/-- Whether a character is a decimal digit. -/
def isDigitCh (c : Char) : Bool := 48 ≤ c.toNat && c.toNat ≤ 57

/-- Decimal rendering of a natural number, most significant digit
first. -/
def natChars (n : Nat) : List Char :=
  if n = 0 then [digitChar 0]
  else (Nat.digits 10 n).reverse.map digitChar

/-- Parse a decimal natural number field. -/
def charsNat (cs : List Char) : Option Nat :=
  match cs with
  | [] => none
  | c :: rest =>
      if (c :: rest).all isDigitCh then
        some (Nat.ofDigits 10 (((c :: rest).map charDigit).reverse))
      else none

/-- Decimal rendering of an integer field (niceness). -/
def intChars (i : Int) : List Char :=
  if i < 0 then Char.ofNat 45 :: natChars (-i).toNat
  else natChars i.toNat

/-- Parse an integer field (niceness). -/
def charsInt (cs : List Char) : Option Int :=
  match cs with
  | [] => none
  | c :: rest =>
      if c = Char.ofNat 45 then (charsNat rest).map (fun n => -(n : Int))
      else (charsNat (c :: rest)).map (fun n => (n : Int))

/-- The policy tags of the log line, per the README's display tags. -/
def policyChars : Policy → List Char
  | .OTHER => ['o', 't', 'h']
  | .FIFO => ['f', 'f', 'o']
  | .RR => ['r', 'r']
  | .BATCH => ['b', 'a', 't']
  | .IDLE => ['i', 'd', 'l']
  | .DEADLINE => ['d', 'd', 'l']

/-- Parse a policy tag field. -/
def charsPolicy (cs : List Char) : Option Policy :=
  if cs = ['o', 't', 'h'] then some .OTHER
  else if cs = ['f', 'f', 'o'] then some .FIFO
  else if cs = ['r', 'r'] then some .RR
  else if cs = ['b', 'a', 't'] then some .BATCH
  else if cs = ['i', 'd', 'l'] then some .IDLE
  else if cs = ['d', 'd', 'l'] then some .DEADLINE
  else none

/-- Modelled from the spec: the field sequence of one log line — session
tag, target identifier, timestamp, vruntime, nr_switches, weight, policy
tag, niceness (spec section 6). -/
def recordFields (r : LogRecord) : List (List Char) :=
  [natChars r.tag, natChars r.snap.target_id, natChars r.snap.timestamp,
   natChars r.snap.vruntime, natChars r.snap.nr_switches,
   natChars r.snap.weight, policyChars r.snap.policy,
   intChars r.snap.niceness]

/-- Parse the eight fields of one log line back into a LogRecord. -/
def parseFields (fs : List (List Char)) : Option LogRecord :=
  match fs with
  | [f1, f2, f3, f4, f5, f6, f7, f8] =>
      match charsNat f1, charsNat f2, charsNat f3, charsNat f4, charsNat f5,
          charsNat f6, charsPolicy f7, charsInt f8 with
      | some tag, some tid, some ts, some vrt, some nsw, some w, some pol,
          some ni =>
          some { tag := tag,
                 snap := { target_id := tid, timestamp := ts,
                           vruntime := vrt, nr_switches := nsw, weight := w,
                           policy := pol, niceness := ni } }
      | _, _, _, _, _, _, _, _ => none
  | _ => none

/-- Join the fields of a line with single space separators. -/
def joinFields : List (List Char) → List Char
  | [] => []
  | [f] => f
  | f :: g :: fs => f ++ ' ' :: joinFields (g :: fs)

/-- Split a log line on its space separators. -/
def splitLine : List Char → List (List Char)
  | [] => [[]]
  | c :: cs =>
      if c = ' ' then [] :: splitLine cs
      else
        match splitLine cs with
        | [] => [[c]]
        | f :: fs => (c :: f) :: fs

/-- Modelled from the spec: SharedLog serializes a LogRecord to one
line-oriented record, its fields separated by spaces. -/
def serializeRecord (r : LogRecord) : List Char :=
  joinFields (recordFields r)

/-- Parse one log line back into a LogRecord. -/
def parseRecord (line : List Char) : Option LogRecord :=
  parseFields (splitLine line)

theorem isDigitCh_digitChar (d : Nat) (h : d < 10) :
    isDigitCh (digitChar d) = true := by
  interval_cases d <;> decide

theorem charDigit_digitChar (d : Nat) (h : d < 10) :
    charDigit (digitChar d) = d := by
  interval_cases d <;> decide

theorem isDigitCh_ne_space (c : Char) (h : isDigitCh c = true) : c ≠ ' ' := by
  intro heq
  subst heq
  exact absurd h (by decide)

theorem isDigitCh_ne_dash (c : Char) (h : isDigitCh c = true) :
    c ≠ Char.ofNat 45 := by
  intro heq
  subst heq
  exact absurd h (by decide)

theorem natChars_all_digits (n : Nat) :
    ∀ c ∈ natChars n, isDigitCh c = true := by
  intro c hc
  unfold natChars at hc
  by_cases h0 : n = 0
  · rw [if_pos h0] at hc
    simp only [List.mem_singleton] at hc
    subst hc
    decide
  · rw [if_neg h0, List.mem_map] at hc
    obtain ⟨d, hd, rfl⟩ := hc
    exact isDigitCh_digitChar d
      (Nat.digits_lt_base (by norm_num) (List.mem_reverse.mp hd))

theorem natChars_ne_nil (n : Nat) : natChars n ≠ [] := by
  unfold natChars
  by_cases h0 : n = 0
  · simp [h0]
  · rw [if_neg h0]
    simp [Nat.digits_ne_nil_iff_ne_zero.mpr h0]

theorem charsNat_natChars (n : Nat) : charsNat (natChars n) = some n := by
  by_cases h0 : n = 0
  · subst h0
    decide
  · have hmem : ∀ x ∈ (Nat.digits 10 n).reverse, x < 10 := fun x hx =>
      Nat.digits_lt_base (by norm_num) (List.mem_reverse.mp hx)
    have hrev : (Nat.digits 10 n).reverse ≠ [] := by
      simp [Nat.digits_ne_nil_iff_ne_zero.mpr h0]
    obtain ⟨d, ds, hds⟩ := List.exists_cons_of_ne_nil hrev
    have hnc : natChars n = digitChar d :: ds.map digitChar := by
      unfold natChars
      rw [if_neg h0, hds, List.map_cons]
    have hall : (digitChar d :: ds.map digitChar).all isDigitCh = true := by
      rw [List.all_eq_true]
      intro c hc
      rw [← List.map_cons, ← hds, List.mem_map] at hc
      obtain ⟨x, hx, rfl⟩ := hc
      exact isDigitCh_digitChar x (hmem x hx)
    have hmap : (digitChar d :: ds.map digitChar).map charDigit = d :: ds := by
      rw [← List.map_cons, ← hds, List.map_map]
      have : ∀ x ∈ (Nat.digits 10 n).reverse,
          (charDigit ∘ digitChar) x = id x := fun x hx =>
        charDigit_digitChar x (hmem x hx)
      rw [List.map_congr_left this, List.map_id]
    rw [hnc]
    simp only [charsNat]
    rw [if_pos hall, hmap, ← hds, List.reverse_reverse,
      Nat.ofDigits_digits]

theorem charsInt_intChars (i : Int) : charsInt (intChars i) = some i := by
  by_cases hneg : i < 0
  · unfold intChars
    rw [if_pos hneg]
    simp only [charsInt, if_true]
    rw [charsNat_natChars]
    have : ((-i).toNat : Int) = -i :=
      Int.toNat_of_nonneg (by omega)
    simp [this]
  · unfold intChars
    rw [if_neg hneg]
    obtain ⟨c, rest, hcr⟩ := List.exists_cons_of_ne_nil (natChars_ne_nil i.toNat)
    have hdig : isDigitCh c = true :=
      natChars_all_digits i.toNat c (by rw [hcr]; simp)
    rw [hcr]
    simp only [charsInt]
    rw [if_neg (isDigitCh_ne_dash c hdig), ← hcr, charsNat_natChars]
    have : (i.toNat : Int) = i := Int.toNat_of_nonneg (by omega)
    simp [this]

theorem charsPolicy_policyChars (p : Policy) :
    charsPolicy (policyChars p) = some p := by
  cases p <;> decide

theorem policyChars_no_space (p : Policy) :
    ∀ c ∈ policyChars p, c ≠ ' ' := by
  cases p <;> decide

theorem natChars_no_space (n : Nat) : ∀ c ∈ natChars n, c ≠ ' ' :=
  fun c hc => isDigitCh_ne_space c (natChars_all_digits n c hc)

theorem intChars_no_space (i : Int) : ∀ c ∈ intChars i, c ≠ ' ' := by
  intro c hc
  unfold intChars at hc
  by_cases hneg : i < 0
  · rw [if_pos hneg, List.mem_cons] at hc
    rcases hc with h | h
    · subst h
      decide
    · exact natChars_no_space _ c h
  · rw [if_neg hneg] at hc
    exact natChars_no_space _ c hc

theorem splitLine_ne_nil (cs : List Char) : splitLine cs ≠ [] := by
  induction cs with
  | nil => simp [splitLine]
  | cons c cs ih =>
      unfold splitLine
      by_cases h : c = ' '
      · simp [h]
      · rw [if_neg h]
        rcases hs : splitLine cs with _ | ⟨f, fs⟩
        · simp
        · simp

theorem splitLine_append (f rest : List Char) (hf : ∀ c ∈ f, c ≠ ' ')
    (g : List Char) (gs : List (List Char)) (h : splitLine rest = g :: gs) :
    splitLine (f ++ rest) = (f ++ g) :: gs := by
  induction f with
  | nil => simpa using h
  | cons c cs ih =>
      have hc : c ≠ ' ' := hf c (by simp)
      have ih2 := ih (fun x hx => hf x (by simp [hx]))
      simp only [List.cons_append, splitLine, if_neg hc, List.append_eq, ih2]

theorem splitLine_joinFields (f : List Char) (fs : List (List Char))
    (h : ∀ g ∈ f :: fs, ∀ c ∈ g, c ≠ ' ') :
    splitLine (joinFields (f :: fs)) = f :: fs := by
  induction fs generalizing f with
  | nil =>
      have h2 := splitLine_append f [] (h f (by simp)) [] [] rfl
      simp only [List.append_nil] at h2
      simpa [joinFields] using h2
  | cons g gs ih =>
      have hj : joinFields (f :: g :: gs) = f ++ ' ' :: joinFields (g :: gs) :=
        rfl
      rw [hj]
      have hrec : splitLine (joinFields (g :: gs)) = g :: gs :=
        ih g (fun x hx => h x (by simp [List.mem_cons] at hx ⊢; tauto))
      have hsp : splitLine (' ' :: joinFields (g :: gs)) =
          [] :: g :: gs := by
        unfold splitLine
        rw [if_pos rfl, hrec]
      have := splitLine_append f (' ' :: joinFields (g :: gs))
        (h f (by simp)) [] (g :: gs) hsp
      simpa using this

/-- C5: parsing is a left inverse of serialization — a LogRecord written
by SharedLog, parsed back from its line, reproduces every field exactly:
session tag, target identifier, timestamp, vruntime, nr_switches, weight,
policy and niceness. -/
theorem parseRecord_serializeRecord (r : LogRecord) :
    parseRecord (serializeRecord r) = some r := by
  have hsplit : splitLine (joinFields (recordFields r)) = recordFields r := by
    apply splitLine_joinFields
    intro g hg
    simp only [recordFields, List.mem_cons, List.mem_singleton] at hg
    rcases hg with h | h | h | h | h | h | h | h | h
    all_goals first
      | (subst h; exact natChars_no_space _)
      | (subst h; exact policyChars_no_space _)
      | (subst h; exact intChars_no_space _)
      | simp at h
  unfold parseRecord serializeRecord
  rw [hsplit]
  simp only [recordFields, parseFields, charsNat_natChars,
    charsPolicy_policyChars, charsInt_intChars]

/-! ## C8: SharedLog atomic appends under concurrent writers -/

/-- Modelled from the spec: the shared log contents producible by two
independent writers (a flood process and a tui process) whose append
calls each perform one single atomic write (open-append-close or
equivalent) of one whole record: the log grows by exactly one whole
record per append, in some arrival order. -/
inductive LogInterleaving :
    List LogRecord → List LogRecord → List LogRecord → Prop
  | nil : LogInterleaving [] [] []
  | left (r : LogRecord) (xs ys zs : List LogRecord) :
      LogInterleaving xs ys zs → LogInterleaving (r :: xs) ys (r :: zs)
  | right (r : LogRecord) (xs ys zs : List LogRecord) :
      LogInterleaving xs ys zs → LogInterleaving xs (r :: ys) (r :: zs)

/-- Modelled from the spec: the per-session failure reporting of
SharedLog.append over the session's sequence of write attempts (true
means the write succeeded); a failure is reported only the first time, so
diagnostics are not flooded while under CPU load. Returns the number of
failure reports the session emits. -/
def failureReports (alreadyReported : Bool) : List Bool → Nat
  | [] => 0
  | ok :: rest =>
      if ok then failureReports alreadyReported rest
      else if alreadyReported then failureReports alreadyReported rest
      else 1 + failureReports true rest

theorem failureReports_after_report (attempts : List Bool) :
    failureReports true attempts = 0 := by
  induction attempts with
  | nil => rfl
  | cons ok rest ih => cases ok <;> simp [failureReports, ih]

theorem failureReports_once (attempts : List Bool) :
    failureReports false attempts = if false ∈ attempts then 1 else 0 := by
  induction attempts with
  | nil => rfl
  | cons ok rest ih =>
      cases ok
      · simp [failureReports, failureReports_after_report]
      · simp [failureReports, ih]

/-- C8: under any interleaving of the append sequences of the two
concurrent writer processes, every entry of the shared log is one whole
record of one of the writers and no append is lost — records interleave
only at whole-record granularity, none is ever corrupted; and a session
over any sequence of write attempts reports a failure exactly once when
any write failed, not once per failed record. -/
theorem sharedLog_atomic_appends
    (w1 w2 log : List LogRecord) (h : LogInterleaving w1 w2 log)
    (attempts : List Bool) :
    (∀ r ∈ log, r ∈ w1 ∨ r ∈ w2) ∧
    log.length = w1.length + w2.length ∧
    failureReports false attempts = (if false ∈ attempts then 1 else 0) := by
  refine ⟨?_, ?_, failureReports_once attempts⟩
  · induction h with
    | nil => intro r hr; simp at hr
    | left r xs ys zs hi ih =>
        intro q hq
        rcases List.mem_cons.mp hq with h1 | h1
        · exact Or.inl (by simp [h1])
        · rcases ih q h1 with h2 | h2
          · exact Or.inl (by simp [h2])
          · exact Or.inr h2
    | right r xs ys zs hi ih =>
        intro q hq
        rcases List.mem_cons.mp hq with h1 | h1
        · exact Or.inr (by simp [h1])
        · rcases ih q h1 with h2 | h2
          · exact Or.inl h2
          · exact Or.inr (by simp [h2])
  · induction h with
    | nil => rfl
    | left r xs ys zs hi ih =>
        simp only [List.length_cons, ih]
        omega
    | right r xs ys zs hi ih =>
        simp only [List.length_cons, ih]
        omega

/-- A concrete record appended by the flood writer, for the witness. -/
def floodRecord : LogRecord :=
  { tag := 1,
    snap := { target_id := 10, timestamp := 5, vruntime := 100,
              nr_switches := 3, weight := 1024, policy := .OTHER,
              niceness := 0 } }

/-- A concrete record appended by the tui writer, for the witness. -/
def tuiRecord : LogRecord :=
  { tag := 2,
    snap := { target_id := 11, timestamp := 6, vruntime := 50,
              nr_switches := 4, weight := 15, policy := .OTHER,
              niceness := 19 } }

/-- Witness for C8 at a concrete two-writer interleaving and a session
with one successful and two failed writes. -/
theorem sharedLog_atomic_appends_witness :
    (∀ r ∈ [floodRecord, tuiRecord], r ∈ [floodRecord] ∨ r ∈ [tuiRecord]) ∧
    ([floodRecord, tuiRecord].length =
      [floodRecord].length + [tuiRecord].length) ∧
    failureReports false [true, false, false] =
      (if false ∈ [true, false, false] then 1 else 0) :=
  sharedLog_atomic_appends [floodRecord] [tuiRecord] [floodRecord, tuiRecord]
    (.left floodRecord [] [tuiRecord] [tuiRecord]
      (.right tuiRecord [] [] [] .nil))
    [true, false, false]

end Testnice
